import Mathlib

/-!
Shallow embedding of `src/mortgage_cashflow_calculator.py`
(`calculate_mortgage_cash_flows_with_defaults`) over exact rational
arithmetic, together with theorems about the scheduled-amortization
curve builder and the month-by-month cash-flow recursion engine.

The Python machine floats are modelled by `ℚ`; a Python float
`ZeroDivisionError` raised while building the curve is modelled by the
`Option` result of the top-level function.  Months are natural numbers,
`months_to_liquidation` is an integer (the Python value may be negative).
-/

namespace MortgageCashflow

/-- Pool parameters of `calculate_mortgage_cash_flows_with_defaults`
(source lines 6-14). -/
structure Params where
  initialBalance : ℚ
  wac : ℚ
  wam : ℕ
  prepayRateSmm : ℚ
  defaultRateMdr : ℚ
  monthsToLiquidation : ℤ
  lossSeverity : ℚ
  piAdvanced : Bool
deriving DecidableEq

/-- `c_monthly = wac / 1200` (line 55; `net_mortgage_rate` on line 51 is the
same expression). -/
def c_monthly (p : Params) : ℚ := p.wac / 1200

/-- Scheduled amortization array `sch_am` (lines 54-64): for
`remaining_months = wam - i > 0`,
`bal = (1 - (1+c)^(-(wam-i))) / (1 - (1+c)^(-wam))` and
`sch_am[i] = bal * c / (1 - (1+c)^(-wam))`; otherwise `sch_am[i] = 0`. -/
def sch_am (p : Params) (i : ℕ) : ℚ :=
  if i < p.wam then
    (1 - ((1 + c_monthly p) ^ (p.wam - i))⁻¹) / (1 - ((1 + c_monthly p) ^ p.wam)⁻¹)
      * c_monthly p / (1 - ((1 + c_monthly p) ^ p.wam)⁻¹)
  else 0

/-- The curve loop raises a Python `ZeroDivisionError` exactly when some
iteration takes the `remaining_months > 0` branch (i.e. `wam > 0`) and either
`(1+c)^(-wam)` is `0**negative` (`1 + c = 0`) or the denominator
`1 - (1+c)^(-wam)` is zero. -/
def curveDivZero (p : Params) : Bool :=
  decide (0 < p.wam) &&
    ((1 + c_monthly p == 0) || (1 - ((1 + c_monthly p) ^ p.wam)⁻¹ == 0))

/-- Entries of `default_queue` (lines 83-86): a dict with keys `amount` and
`recovery_month`. -/
structure DefaultRecord where
  amount : ℚ
  recoveryMonth : ℤ
deriving DecidableEq

/-- The running state of the month loop: `perf_bal_prev`, `fcl_prev`
(lines 49-50) and `default_queue` (line 67). -/
structure EngineState where
  perfBalPrev : ℚ
  fclPrev : ℚ
  defaultQueue : List DefaultRecord
deriving DecidableEq

/-- Effective monthly default rate (lines 70-74): `0` once
`month > months - months_to_liquidation`, else `default_rate_mdr / 100`. -/
def mdrAt (p : Params) (month : ℕ) : ℚ :=
  if (month : ℤ) > (p.wam : ℤ) - p.monthsToLiquidation then 0
  else p.defaultRateMdr / 100

/-- `smm = prepay_rate_smm / 100` (line 76). -/
def smmOf (p : Params) : ℚ := p.prepayRateSmm / 100

/-- `new_def = perf_bal_prev * mdr` (line 79). -/
def newDefOf (p : Params) (s : EngineState) (month : ℕ) : ℚ :=
  s.perfBalPrev * mdrAt p month

/-- The queue as scanned during `month` (lines 82-86): the previous queue,
with `{amount := new_def, recovery_month := month + months_to_liquidation}`
appended when `new_def > 0`. -/
def queueDuring (p : Params) (s : EngineState) (month : ℕ) : List DefaultRecord :=
  if 0 < newDefOf p s month then
    s.defaultQueue ++ [⟨newDefOf p s month, (month : ℤ) + p.monthsToLiquidation⟩]
  else s.defaultQueue

/-- Contribution of one queue entry to `adb` at `month` (lines 90-96):
zero unless `recovery_month == month`; when it matches, the amount scaled by
`sch_am[month-1] / sch_am[month - months_to_liquidation]` if
`pi_advanced and month > 0 and month - 1 < len(sch_am)`, else the raw amount.
(The integer index `month - months_to_liquidation` is non-negative whenever a
record actually matches, so `Int.toNat` is faithful to Python indexing.) -/
def adbContrib (p : Params) (month : ℕ) (d : DefaultRecord) : ℚ :=
  if d.recoveryMonth = (month : ℤ) then
    if p.piAdvanced = true ∧ 0 < month ∧ month - 1 < p.wam + 1 then
      d.amount * (sch_am p (month - 1) / sch_am p (((month : ℤ) - p.monthsToLiquidation).toNat))
    else d.amount
  else 0

/-- `adb` accumulated over the queue (lines 89-96). -/
def adbOf (p : Params) (s : EngineState) (month : ℕ) : ℚ :=
  (queueDuring p s month).foldl (fun acc d => acc + adbContrib p month d) 0

/-- Per-month amortization factor (lines 102-105):
`1 - sch_am[month] / sch_am[month-1]` when `month > 0`,
`month < len(sch_am)` and `sch_am[month-1] > 0`, else `0`. -/
def amortFactorAt (p : Params) (month : ℕ) : ℚ :=
  if 0 < month ∧ month < p.wam + 1 then
    if 0 < sch_am p (month - 1) then 1 - sch_am p month / sch_am p (month - 1) else 0
  else 0

/-- One row appended to `results` (lines 145-163).  Field names follow the
dict keys of the source. -/
structure MonthlyRecord where
  month : ℕ
  performingBalance : ℚ
  newDefaults : ℚ
  inForeclosure : ℚ
  amortFactor : ℚ
  expectedAmortization : ℚ
  voluntaryPrepayments : ℚ
  amortFromDefaults : ℚ
  actualAmort : ℚ
  expectedInterest : ℚ
  interestLost : ℚ
  actualInterest : ℚ
  principalRecovery : ℚ
  principalLoss : ℚ
  inRecoveryMonth : Option ℚ
  defaultRate : ℚ
  prepayRate : ℚ
deriving DecidableEq

/-- One iteration of the month loop (lines 69-167): computes every per-month
quantity from the previous state, returning the next state and the emitted
row. -/
def monthStep (p : Params) (s : EngineState) (month : ℕ) : EngineState × MonthlyRecord :=
  let mdr := mdrAt p month
  let smm := smmOf p
  let newDef := newDefOf p s month
  let queue := queueDuring p s month
  let adb := adbOf p s month
  let fcl0 := newDef + s.fclPrev - adb
  let amortFactor := amortFactorAt p month
  let expAm := (s.perfBalPrev + s.fclPrev - adb) * amortFactor
  let volPrepay := s.perfBalPrev * amortFactor * smm
  let amDef := if p.piAdvanced then (newDef + s.fclPrev - adb) * amortFactor else 0
  let actAm := (s.perfBalPrev - newDef) * amortFactor
  let fcl := fcl0 - amDef
  let expInt := (s.perfBalPrev + s.fclPrev) * c_monthly p
  let lostInt := (newDef + s.fclPrev) * c_monthly p
  let actInt := expInt - lostInt
  let prinLoss := if 0 < adb then min (adb * (p.lossSeverity / 100)) adb else 0
  let prinRecov := max (adb - prinLoss) 0
  let perfBal := s.perfBalPrev - newDef - volPrepay - actAm
  let poolFactor := perfBal / p.initialBalance
  (⟨perfBal, fcl, queue⟩,
   { month := month
     performingBalance := perfBal
     newDefaults := newDef
     inForeclosure := fcl
     amortFactor := poolFactor
     expectedAmortization := expAm
     voluntaryPrepayments := volPrepay
     amortFromDefaults := amDef
     actualAmort := actAm
     expectedInterest := expInt
     interestLost := lostInt
     actualInterest := actInt
     principalRecovery := prinRecov
     principalLoss := prinLoss
     inRecoveryMonth := if 0 < adb then some adb else none
     defaultRate := mdr
     prepayRate := smm })

/-- Initial state (lines 49-50, 67). -/
def initState (p : Params) : EngineState :=
  ⟨p.initialBalance, 0, []⟩

/-- State after the loop has processed months `1..m`. -/
def stateAfter (p : Params) : ℕ → EngineState
  | 0 => initState p
  | m + 1 => (monthStep p (stateAfter p m) (m + 1)).1

/-- The row emitted for `month` (meaningful for `1 ≤ month`). -/
def recordAt (p : Params) (month : ℕ) : MonthlyRecord :=
  (monthStep p (stateAfter p (month - 1)) month).2

/-- Performing balance entering month `m+1` (equivalently, ending month `m`). -/
def perfAt (p : Params) (m : ℕ) : ℚ := (stateAfter p m).perfBalPrev

/-- Foreclosure balance ending month `m`. -/
def fclAt (p : Params) (m : ℕ) : ℚ := (stateAfter p m).fclPrev

/-- Default queue ending month `m` (the queue scanned during month `m`,
since the only queue mutation is the append at the start of the month). -/
def queueAfter (p : Params) (m : ℕ) : List DefaultRecord :=
  (stateAfter p m).defaultQueue

/-- Final display copy (lines 173-175): the two rate columns are multiplied
by 100. -/
def displayRecord (r : MonthlyRecord) : MonthlyRecord :=
  { r with defaultRate := r.defaultRate * 100, prepayRate := r.prepayRate * 100 }

/-- Top-level function: `none` models the `ZeroDivisionError` raised while
building the curve; otherwise the ordered sequence of displayed monthly
rows for months `1..wam`. -/
def calculate_mortgage_cash_flows_with_defaults (p : Params) : Option (List MonthlyRecord) :=
  if curveDivZero p then none
  else some (((List.range p.wam).map fun k => recordAt p (k + 1)).map displayRecord)

/-- The spec's annuity remaining-balance fraction
`(1 - (1+c)^-(WAM-i)) / (1 - (1+c)^-WAM)` (spec section 4.1), written from
the spec's words for comparison with `sch_am`. -/
def annuityFraction (c : ℚ) (wam i : ℕ) : ℚ :=
  (1 - ((1 + c) ^ (wam - i))⁻¹) / (1 - ((1 + c) ^ wam)⁻¹)

/-- The record `r` is the one appended to the queue at month `o`. -/
def appendedAt (p : Params) (r : DefaultRecord) (o : ℕ) : Prop :=
  1 ≤ o ∧ 0 < newDefOf p (stateAfter p (o - 1)) o ∧
    r = ⟨newDefOf p (stateAfter p (o - 1)) o, (o : ℤ) + p.monthsToLiquidation⟩

/-- No field of the row `r` holds the value `x`. -/
def noFieldHolds (r : MonthlyRecord) (x : ℚ) : Prop :=
  (r.month : ℚ) ≠ x ∧ r.performingBalance ≠ x ∧ r.newDefaults ≠ x ∧
  r.inForeclosure ≠ x ∧ r.amortFactor ≠ x ∧ r.expectedAmortization ≠ x ∧
  r.voluntaryPrepayments ≠ x ∧ r.amortFromDefaults ≠ x ∧ r.actualAmort ≠ x ∧
  r.expectedInterest ≠ x ∧ r.interestLost ≠ x ∧ r.actualInterest ≠ x ∧
  r.principalRecovery ≠ x ∧ r.principalLoss ≠ x ∧ r.inRecoveryMonth ≠ some x ∧
  r.defaultRate ≠ x ∧ r.prepayRate ≠ x

/-- Concrete parameter set: 2-month pool, 100% annual-coupon-per-month
(`c = 1`), 50% SMM, 10% MDR, one month to liquidation. -/
def pDef : Params :=
  ⟨100, 1200, 2, 50, 10, 1, 20, true⟩

/-- Concrete parameter set with zero rates. -/
def pClean : Params :=
  ⟨100, 1200, 2, 0, 0, 1, 20, true⟩

/-- Concrete parameter set: 50% SMM, no defaults. -/
def pHalf : Params :=
  ⟨100, 1200, 2, 50, 0, 1, 20, true⟩

/-- Concrete one-month pool. -/
def pOne : Params :=
  ⟨100, 1200, 1, 0, 0, 0, 20, true⟩

/-- Concrete zero-coupon parameter set. -/
def pZero : Params :=
  ⟨100000000, 0, 12, 1, 1, 12, 20, true⟩

/-- Concrete parameter set with a negative initial balance. -/
def pNeg : Params :=
  ⟨-100, 1200, 2, 0, 0, 1, 20, true⟩

/-- Concrete parameter set with `months_to_liquidation = 0 < wam` and
100% MDR: the month-1 default matures in month 1. -/
def pMtl0 : Params :=
  ⟨100, 1200, 1, 0, 100, 0, 20, true⟩

/-- Concrete parameter set with `months_to_liquidation ≥ wam`. -/
def pLiq : Params :=
  ⟨100, 1200, 2, 0, 100, 5, 20, true⟩

/-! ### Properties of the scheduled-amortization curve -/

lemma c_monthly_pos (p : Params) (hw : 0 < p.wac) : 0 < c_monthly p := by
  unfold c_monthly; positivity

lemma one_lt_base (p : Params) (hw : 0 < p.wac) : 1 < 1 + c_monthly p := by
  have := c_monthly_pos p hw; linarith

lemma denom_pos (p : Params) (hw : 0 < p.wac) (hm : 1 ≤ p.wam) :
    0 < 1 - ((1 + c_monthly p) ^ p.wam)⁻¹ := by
  have h1 : 1 < (1 + c_monthly p) ^ p.wam :=
    one_lt_pow₀ (one_lt_base p hw) (by omega)
  have h2 : ((1 + c_monthly p) ^ p.wam)⁻¹ < 1 := inv_lt_one_of_one_lt₀ h1
  linarith

lemma numer_pos (p : Params) (hw : 0 < p.wac) (i : ℕ) (hi : i < p.wam) :
    0 < 1 - ((1 + c_monthly p) ^ (p.wam - i))⁻¹ := by
  have h1 : 1 < (1 + c_monthly p) ^ (p.wam - i) :=
    one_lt_pow₀ (one_lt_base p hw) (by omega)
  have h2 := inv_lt_one_of_one_lt₀ h1
  linarith

lemma sch_am_eq (p : Params) (i : ℕ) (hi : i < p.wam) :
    sch_am p i = (1 - ((1 + c_monthly p) ^ (p.wam - i))⁻¹) *
      (c_monthly p /
        (1 - ((1 + c_monthly p) ^ p.wam)⁻¹) / (1 - ((1 + c_monthly p) ^ p.wam)⁻¹)) := by
  unfold sch_am; rw [if_pos hi]; ring

lemma sch_am_pos (p : Params) (hw : 0 < p.wac) (i : ℕ) (hi : i < p.wam) :
    0 < sch_am p i := by
  rw [sch_am_eq p i hi]
  have h1 := numer_pos p hw i hi
  have h2 := denom_pos p hw (by omega)
  have h3 := c_monthly_pos p hw
  exact mul_pos h1 (div_pos (div_pos h3 h2) h2)

lemma sch_am_zero_of_ge (p : Params) (i : ℕ) (hi : p.wam ≤ i) : sch_am p i = 0 := by
  unfold sch_am; rw [if_neg (by omega)]

lemma sch_am_nonneg (p : Params) (hw : 0 < p.wac) (i : ℕ) : 0 ≤ sch_am p i := by
  by_cases hi : i < p.wam
  · exact (sch_am_pos p hw i hi).le
  · rw [sch_am_zero_of_ge p i (by omega)]

lemma sch_am_antitone (p : Params) (hw : 0 < p.wac) : Antitone (sch_am p) := by
  apply antitone_nat_of_succ_le
  intro i
  by_cases hi : i + 1 < p.wam
  · rw [sch_am_eq p i (by omega), sch_am_eq p (i + 1) hi]
    apply mul_le_mul_of_nonneg_right
    · have hb : (1 : ℚ) ≤ 1 + c_monthly p := by
        have := one_lt_base p hw; linarith
      have hpow : (1 + c_monthly p) ^ (p.wam - (i + 1)) ≤ (1 + c_monthly p) ^ (p.wam - i) :=
        pow_le_pow_right₀ hb (by omega)
      have hp1 : 0 < (1 + c_monthly p) ^ (p.wam - (i + 1)) :=
        pow_pos (by linarith) _
      have := inv_anti₀ hp1 hpow
      linarith
    · have h2 := denom_pos p hw (by omega)
      have h3 := c_monthly_pos p hw
      exact (div_pos (div_pos h3 h2) h2).le
  · rw [sch_am_zero_of_ge p (i + 1) (by omega)]
    exact sch_am_nonneg p hw i

lemma amortFactorAt_nonneg (p : Params) (hw : 0 < p.wac) (m : ℕ) :
    0 ≤ amortFactorAt p m := by
  unfold amortFactorAt
  by_cases h1 : 0 < m ∧ m < p.wam + 1
  · rw [if_pos h1]
    by_cases h2 : 0 < sch_am p (m - 1)
    · rw [if_pos h2]
      have hle : sch_am p m ≤ sch_am p (m - 1) := sch_am_antitone p hw (Nat.sub_le m 1)
      have := (div_le_one h2).mpr hle
      linarith
    · rw [if_neg h2]
  · rw [if_neg h1]

lemma amortFactorAt_le_one (p : Params) (hw : 0 < p.wac) (m : ℕ) :
    amortFactorAt p m ≤ 1 := by
  unfold amortFactorAt
  by_cases h1 : 0 < m ∧ m < p.wam + 1
  · rw [if_pos h1]
    by_cases h2 : 0 < sch_am p (m - 1)
    · rw [if_pos h2]
      have hd : 0 ≤ sch_am p m / sch_am p (m - 1) :=
        div_nonneg (sch_am_nonneg p hw m) h2.le
      linarith
    · rw [if_neg h2]; norm_num
  · rw [if_neg h1]; norm_num

lemma amortFactorAt_wam (p : Params) (hw : 0 < p.wac) (hm : 1 ≤ p.wam) :
    amortFactorAt p p.wam = 1 := by
  unfold amortFactorAt
  rw [if_pos ⟨by omega, by omega⟩, if_pos (sch_am_pos p hw (p.wam - 1) (by omega)),
    sch_am_zero_of_ge p p.wam (le_refl _), zero_div, sub_zero]

/-! ### Unfolding lemmas for the recursion engine -/

lemma foldl_add_eq (f : DefaultRecord → ℚ) (l : List DefaultRecord) (a : ℚ) :
    l.foldl (fun acc d => acc + f d) a = a + (l.map f).sum := by
  induction l generalizing a with
  | nil => simp
  | cons d t ih => simp only [List.foldl_cons, List.map_cons, List.sum_cons, ih]; ring

lemma adbOf_eq_sum (p : Params) (s : EngineState) (month : ℕ) :
    adbOf p s month = ((queueDuring p s month).map (adbContrib p month)).sum := by
  unfold adbOf; rw [foldl_add_eq, zero_add]

lemma perfAt_zero (p : Params) : perfAt p 0 = p.initialBalance := rfl

lemma fclAt_zero (p : Params) : fclAt p 0 = 0 := rfl

lemma queueAfter_zero (p : Params) : queueAfter p 0 = [] := rfl

lemma stateAfter_succ (p : Params) (m : ℕ) :
    stateAfter p (m + 1) = (monthStep p (stateAfter p m) (m + 1)).1 := rfl

lemma recordAt_succ (p : Params) (m : ℕ) :
    recordAt p (m + 1) = (monthStep p (stateAfter p m) (m + 1)).2 := by
  unfold recordAt
  norm_num

lemma perfAt_succ (p : Params) (m : ℕ) :
    perfAt p (m + 1) =
      perfAt p m - newDefOf p (stateAfter p m) (m + 1)
        - perfAt p m * amortFactorAt p (m + 1) * smmOf p
        - (perfAt p m - newDefOf p (stateAfter p m) (m + 1)) * amortFactorAt p (m + 1) := rfl

lemma fclAt_succ (p : Params) (m : ℕ) :
    fclAt p (m + 1) =
      newDefOf p (stateAfter p m) (m + 1) + fclAt p m - adbOf p (stateAfter p m) (m + 1)
        - (if p.piAdvanced then
            (newDefOf p (stateAfter p m) (m + 1) + fclAt p m - adbOf p (stateAfter p m) (m + 1))
              * amortFactorAt p (m + 1)
          else 0) := rfl

lemma queueAfter_succ (p : Params) (m : ℕ) :
    queueAfter p (m + 1) = queueDuring p (stateAfter p m) (m + 1) := rfl

lemma queueDuring_eq_append (p : Params) (s : EngineState) (month : ℕ) :
    queueDuring p s month = s.defaultQueue ++
      (if 0 < newDefOf p s month then
        [⟨newDefOf p s month, (month : ℤ) + p.monthsToLiquidation⟩] else []) := by
  unfold queueDuring
  split
  · rfl
  · simp

lemma newDefOf_eq (p : Params) (m : ℕ) :
    newDefOf p (stateAfter p m) (m + 1) = perfAt p m * mdrAt p (m + 1) := rfl

/-! ### Queue membership -/

lemma mem_queueAfter (p : Params) (r : DefaultRecord) :
    ∀ m, r ∈ queueAfter p m ↔ ∃ o, o ≤ m ∧ appendedAt p r o := by
  intro m
  induction m with
  | zero =>
    rw [queueAfter_zero]
    simp only [List.not_mem_nil, false_iff]
    rintro ⟨o, ho, h1, -⟩
    omega
  | succ k ih =>
    rw [queueAfter_succ, queueDuring_eq_append, List.mem_append]
    show r ∈ queueAfter p k ∨ _ ↔ _
    rw [ih]
    constructor
    · rintro (⟨o, ho, happ⟩ | hnew)
      · exact ⟨o, by omega, happ⟩
      · refine ⟨k + 1, le_refl _, ?_⟩
        by_cases hg : 0 < newDefOf p (stateAfter p k) (k + 1)
        · rw [if_pos hg] at hnew
          simp only [List.mem_singleton] at hnew

          refine ⟨by omega, ?_, ?_⟩
          · simpa using hg
          · simpa using hnew
        · rw [if_neg hg] at hnew
          simp at hnew
    · rintro ⟨o, ho, happ⟩
      by_cases hok : o ≤ k
      · exact Or.inl ⟨o, hok, happ⟩
      · have hoe : o = k + 1 := by omega
        subst hoe
        obtain ⟨-, hg, hr⟩ := happ
        right
        have hg2 : 0 < newDefOf p (stateAfter p k) (k + 1) := by simpa using hg
        rw [if_pos hg2]
        simp only [List.mem_singleton]
        simpa using hr

lemma appendedAt_facts (p : Params) (r : DefaultRecord) (o : ℕ)
    (h : appendedAt p r o) :
    (o : ℤ) ≤ (p.wam : ℤ) - p.monthsToLiquidation ∧
      r.recoveryMonth = (o : ℤ) + p.monthsToLiquidation := by
  obtain ⟨h1, h2, h3⟩ := h
  constructor
  · by_contra hc
    have hmdr : mdrAt p o = 0 := by
      unfold mdrAt
      rw [if_pos (by omega)]
    unfold newDefOf at h2
    rw [hmdr, mul_zero] at h2
    exact lt_irrefl 0 h2
  · rw [h3]

/-! ### Zero-default invariants -/

lemma mdrAt_of_rate_zero (p : Params) (hd : p.defaultRateMdr = 0) (m : ℕ) :
    mdrAt p m = 0 := by
  unfold mdrAt
  split
  · rfl
  · rw [hd, zero_div]

lemma mdrAt_of_liq_ge (p : Params) (h : (p.wam : ℤ) ≤ p.monthsToLiquidation)
    (m : ℕ) (hm : 1 ≤ m) : mdrAt p m = 0 := by
  unfold mdrAt
  rw [if_pos (by omega)]

lemma no_default_invariant (p : Params) (hmdr : ∀ m, 1 ≤ m → mdrAt p m = 0) :
    ∀ m, queueAfter p m = [] ∧ fclAt p m = 0 := by
  intro m
  induction m with
  | zero => exact ⟨rfl, rfl⟩
  | succ k ih =>
    obtain ⟨hq, hf⟩ := ih
    have hnd : newDefOf p (stateAfter p k) (k + 1) = 0 := by
      rw [newDefOf_eq, hmdr (k + 1) (by omega), mul_zero]
    have hqd : queueDuring p (stateAfter p k) (k + 1) = [] := by
      rw [queueDuring_eq_append, hnd]
      show queueAfter p k ++ _ = []
      simp [hq]
    have hadb : adbOf p (stateAfter p k) (k + 1) = 0 := by
      rw [adbOf_eq_sum, hqd]
      simp
    refine ⟨?_, ?_⟩
    · rw [queueAfter_succ, hqd]
    · rw [fclAt_succ, hnd, hf, hadb]
      simp

/-! ### Record projections -/

lemma recordAt_performingBalance (p : Params) (m : ℕ) :
    (recordAt p (m + 1)).performingBalance = perfAt p (m + 1) := rfl

lemma recordAt_amortFactor (p : Params) (m : ℕ) :
    (recordAt p (m + 1)).amortFactor = perfAt p (m + 1) / p.initialBalance := rfl

lemma recordAt_newDefaults (p : Params) (m : ℕ) :
    (recordAt p (m + 1)).newDefaults = newDefOf p (stateAfter p m) (m + 1) := rfl

lemma recordAt_voluntaryPrepayments (p : Params) (m : ℕ) :
    (recordAt p (m + 1)).voluntaryPrepayments =
      perfAt p m * amortFactorAt p (m + 1) * smmOf p := rfl

lemma recordAt_actualAmort (p : Params) (m : ℕ) :
    (recordAt p (m + 1)).actualAmort =
      (perfAt p m - newDefOf p (stateAfter p m) (m + 1)) * amortFactorAt p (m + 1) := rfl

lemma recordAt_expectedAmortization (p : Params) (m : ℕ) :
    (recordAt p (m + 1)).expectedAmortization =
      (perfAt p m + fclAt p m - adbOf p (stateAfter p m) (m + 1))
        * amortFactorAt p (m + 1) := rfl

lemma recordAt_principalLoss (p : Params) (m : ℕ) :
    (recordAt p (m + 1)).principalLoss =
      if 0 < adbOf p (stateAfter p m) (m + 1) then
        min (adbOf p (stateAfter p m) (m + 1) * (p.lossSeverity / 100))
          (adbOf p (stateAfter p m) (m + 1))
      else 0 := rfl

lemma recordAt_principalRecovery (p : Params) (m : ℕ) :
    (recordAt p (m + 1)).principalRecovery =
      max (adbOf p (stateAfter p m) (m + 1) - (recordAt p (m + 1)).principalLoss) 0 := rfl

/-! ### Performing-balance recursion bounds -/

lemma perfAt_succ_smm_zero (p : Params) (hp : p.prepayRateSmm = 0) (m : ℕ) :
    perfAt p (m + 1) = perfAt p m * (1 - mdrAt p (m + 1)) * (1 - amortFactorAt p (m + 1)) := by
  rw [perfAt_succ, newDefOf_eq]
  unfold smmOf
  rw [hp, zero_div]
  ring

lemma mdrAt_bounds (p : Params) (hd0 : 0 ≤ p.defaultRateMdr)
    (hd1 : p.defaultRateMdr ≤ 100) (m : ℕ) : 0 ≤ mdrAt p m ∧ mdrAt p m ≤ 1 := by
  unfold mdrAt
  split
  · norm_num
  · exact ⟨div_nonneg hd0 (by norm_num), by linarith⟩

lemma perf_step_le (p : Params) (hw : 0 < p.wac) (hd0 : 0 ≤ p.defaultRateMdr)
    (hd1 : p.defaultRateMdr ≤ 100) (hp : p.prepayRateSmm = 0) (m : ℕ)
    (hnn : 0 ≤ perfAt p m) :
    0 ≤ perfAt p (m + 1) ∧ perfAt p (m + 1) ≤ perfAt p m := by
  rw [perfAt_succ_smm_zero p hp]
  obtain ⟨hm0, hm1⟩ := mdrAt_bounds p hd0 hd1 (m + 1)
  have ha0 := amortFactorAt_nonneg p hw (m + 1)
  have ha1 := amortFactorAt_le_one p hw (m + 1)
  have h1 : 0 ≤ 1 - mdrAt p (m + 1) := by linarith
  have h2 : 0 ≤ 1 - amortFactorAt p (m + 1) := by linarith
  constructor
  · exact mul_nonneg (mul_nonneg hnn h1) h2
  · have h3 : perfAt p m * (1 - mdrAt p (m + 1)) ≤ perfAt p m * 1 :=
      mul_le_mul_of_nonneg_left (by linarith) hnn
    have h4 : 0 ≤ perfAt p m * (1 - mdrAt p (m + 1)) := mul_nonneg hnn h1
    have h5 : perfAt p m * (1 - mdrAt p (m + 1)) * (1 - amortFactorAt p (m + 1)) ≤
        perfAt p m * (1 - mdrAt p (m + 1)) * 1 :=
      mul_le_mul_of_nonneg_left (by linarith) h4
    rw [mul_one] at h3 h5
    linarith

lemma perfAt_bounds (p : Params) (hb : 0 ≤ p.initialBalance) (hw : 0 < p.wac)
    (hd0 : 0 ≤ p.defaultRateMdr) (hd1 : p.defaultRateMdr ≤ 100)
    (hp : p.prepayRateSmm = 0) :
    ∀ m, 0 ≤ perfAt p m ∧ perfAt p m ≤ p.initialBalance := by
  intro m
  induction m with
  | zero => rw [perfAt_zero]; exact ⟨hb, le_refl _⟩
  | succ k ih =>
    obtain ⟨h0, h1⟩ := ih
    obtain ⟨s0, s1⟩ := perf_step_le p hw hd0 hd1 hp k h0
    exact ⟨s0, le_trans s1 h1⟩

/-! ### Run-completion lemma -/

lemma curveDivZero_false (p : Params) (hw : 0 < p.wac) : curveDivZero p = false := by
  unfold curveDivZero
  rcases Nat.eq_zero_or_pos p.wam with h | h
  · simp [h]
  · have h1 : (1 : ℚ) + c_monthly p ≠ 0 := by
      have := c_monthly_pos p hw; linarith
    have h2 : 1 - ((1 + c_monthly p) ^ p.wam)⁻¹ ≠ 0 :=
      ne_of_gt (denom_pos p hw (by omega))
    simp [h1, h2]

lemma calculate_eq_some (p : Params) (hw : 0 < p.wac) :
    calculate_mortgage_cash_flows_with_defaults p =
      some (((List.range p.wam).map fun k => recordAt p (k + 1)).map displayRecord) := by
  unfold calculate_mortgage_cash_flows_with_defaults
  rw [curveDivZero_false p hw]
  simp

/-! ### Claim theorems -/

/-- Claim C1: for every run with valid parameters and every month `m` in
`1..WAM`, the emitted performing balance satisfies
`performing[m] = performing[m-1] - new_defaults[m] - voluntary_prepayments[m]
- actual_amortization[m]` exactly, with `performing[0]` the initial balance. -/
theorem claim_C1_rollforward (p : Params)
    (hb : 0 < p.initialBalance) (hw : 0 < p.wac) (hm : 1 ≤ p.wam)
    (hp0 : 0 ≤ p.prepayRateSmm) (hp1 : p.prepayRateSmm ≤ 100)
    (hd0 : 0 ≤ p.defaultRateMdr) (hd1 : p.defaultRateMdr ≤ 100)
    (hl0 : 0 ≤ p.monthsToLiquidation) (hl1 : p.monthsToLiquidation < (p.wam : ℤ))
    (m : ℕ) (h1 : 1 ≤ m) (h2 : m ≤ p.wam) :
    perfAt p 0 = p.initialBalance ∧
    (recordAt p m).performingBalance =
      perfAt p (m - 1) - (recordAt p m).newDefaults -
        (recordAt p m).voluntaryPrepayments - (recordAt p m).actualAmort ∧
    (recordAt p m).performingBalance = perfAt p m := by
  obtain ⟨k, rfl⟩ : ∃ k, m = k + 1 := ⟨m - 1, by omega⟩
  refine ⟨perfAt_zero p, ?_, recordAt_performingBalance p k⟩
  rw [recordAt_performingBalance, recordAt_newDefaults, recordAt_voluntaryPrepayments,
    recordAt_actualAmort, perfAt_succ, Nat.add_sub_cancel]

/-- Witness for C1 at the concrete parameter set `pDef`, month 1. -/
theorem claim_C1_rollforward_witness :
    perfAt pDef 0 = pDef.initialBalance ∧
    (recordAt pDef 1).performingBalance =
      perfAt pDef 0 - (recordAt pDef 1).newDefaults -
        (recordAt pDef 1).voluntaryPrepayments - (recordAt pDef 1).actualAmort ∧
    (recordAt pDef 1).performingBalance = perfAt pDef 1 :=
  claim_C1_rollforward pDef (by norm_num [pDef]) (by norm_num [pDef]) (by norm_num [pDef])
    (by norm_num [pDef]) (by norm_num [pDef]) (by norm_num [pDef]) (by norm_num [pDef])
    (by norm_num [pDef]) (by norm_num [pDef]) 1 (le_refl 1) (by norm_num [pDef])

/-- Claim C2 counterexample: `pHalf` has positive initial balance and both
rate percentages in `[0,100]` (SMM 50, MDR 0), yet the month-2 pool factor
(the emitted `Amort Factor` field) is negative, refuting "pool factor lies in
`[0,1]` for every month". -/
theorem claim_C2_counterexample :
    0 < pHalf.initialBalance ∧ 0 ≤ pHalf.prepayRateSmm ∧ pHalf.prepayRateSmm ≤ 100 ∧
    0 ≤ pHalf.defaultRateMdr ∧ pHalf.defaultRateMdr ≤ 100 ∧ 2 ≤ pHalf.wam ∧
    (recordAt pHalf 2).amortFactor < 0 := by
  norm_num [recordAt, stateAfter, monthStep, mdrAt, smmOf, newDefOf, queueDuring,
    adbContrib, adbOf, amortFactorAt, sch_am, c_monthly, initState, pHalf]

/-- Claim C2 amended: with positive initial balance, positive coupon, default
rate in `[0,100]` and zero prepayment rate, the pool factor of every monthly
record lies in `[0,1]` and the sequence of pool factors is non-increasing. -/
theorem claim_C2_amended (p : Params) (hb : 0 < p.initialBalance) (hw : 0 < p.wac)
    (hd0 : 0 ≤ p.defaultRateMdr) (hd1 : p.defaultRateMdr ≤ 100)
    (hp : p.prepayRateSmm = 0) :
    (∀ m, 1 ≤ m → m ≤ p.wam →
      0 ≤ (recordAt p m).amortFactor ∧ (recordAt p m).amortFactor ≤ 1) ∧
    (∀ m, 1 ≤ m → m + 1 ≤ p.wam →
      (recordAt p (m + 1)).amortFactor ≤ (recordAt p m).amortFactor) := by
  have hbnd := perfAt_bounds p hb.le hw hd0 hd1 hp
  constructor
  · intro m h1 h2
    obtain ⟨k, rfl⟩ : ∃ k, m = k + 1 := ⟨m - 1, by omega⟩
    rw [recordAt_amortFactor]
    obtain ⟨q0, q1⟩ := hbnd (k + 1)
    exact ⟨div_nonneg q0 hb.le, (div_le_one hb).mpr q1⟩
  · intro m h1 h2
    obtain ⟨k, rfl⟩ : ∃ k, m = k + 1 := ⟨m - 1, by omega⟩
    rw [recordAt_amortFactor, recordAt_amortFactor]
    refine (div_le_div_iff_of_pos_right hb).mpr ?_
    exact (perf_step_le p hw hd0 hd1 hp (k + 1) (hbnd (k + 1)).1).2

/-- Witness for the amended C2 at `pClean`, months 1 and 2. -/
theorem claim_C2_amended_witness :
    (0 ≤ (recordAt pClean 1).amortFactor ∧ (recordAt pClean 1).amortFactor ≤ 1) ∧
    (recordAt pClean 2).amortFactor ≤ (recordAt pClean 1).amortFactor :=
  ⟨(claim_C2_amended pClean (by norm_num [pClean]) (by norm_num [pClean])
      (by norm_num [pClean]) (by norm_num [pClean]) (by norm_num [pClean])).1
      1 (le_refl 1) (by norm_num [pClean]),
   (claim_C2_amended pClean (by norm_num [pClean]) (by norm_num [pClean])
      (by norm_num [pClean]) (by norm_num [pClean]) (by norm_num [pClean])).2
      1 (le_refl 1) (by norm_num [pClean])⟩

/-- Claim C3 counterexample: at `pOne` (WAC 1200, so `c = 1`, WAM 1) the
curve entry `sch[0]` is `2`, while the spec's annuity remaining-balance
fraction at index 0 is `1`: the builder does not produce the annuity
fraction (and `sch[0] ≠ 1`). -/
theorem claim_C3_counterexample :
    sch_am pOne 0 = 2 ∧ annuityFraction (c_monthly pOne) pOne.wam 0 = 1 ∧
      sch_am pOne 0 ≠ 1 := by
  norm_num [sch_am, annuityFraction, c_monthly, pOne]

/-- Claim C3 amended: the builder produces the annuity fraction multiplied by
the extra factor `c / (1 - (1+c)^-WAM)` (so `sch[0]` equals this factor, not
1); `sch[WAM] = 0` and `sch` is non-increasing still hold. -/
theorem claim_C3_amended (p : Params) (hw : 0 < p.wac) (hm : 1 ≤ p.wam) :
    (∀ i, i ≤ p.wam → sch_am p i =
      annuityFraction (c_monthly p) p.wam i *
        (c_monthly p / (1 - ((1 + c_monthly p) ^ p.wam)⁻¹))) ∧
    sch_am p 0 = c_monthly p / (1 - ((1 + c_monthly p) ^ p.wam)⁻¹) ∧
    sch_am p p.wam = 0 ∧
    (∀ i j, i ≤ j → sch_am p j ≤ sch_am p i) := by
  have hD := denom_pos p hw hm
  refine ⟨?_, ?_, sch_am_zero_of_ge p p.wam (le_refl _),
    fun i j hij => sch_am_antitone p hw hij⟩
  · intro i hi
    unfold annuityFraction
    by_cases hlt : i < p.wam
    · unfold sch_am
      rw [if_pos hlt]
      ring
    · have hie : i = p.wam := by omega
      subst hie
      rw [sch_am_zero_of_ge p p.wam (le_refl _), Nat.sub_self, pow_zero, inv_one,
        sub_self, zero_div, zero_mul]
  · unfold sch_am
    rw [if_pos (by omega), Nat.sub_zero, div_self (ne_of_gt hD), one_mul]

/-- Witness for the amended C3 at `pOne`. -/
theorem claim_C3_amended_witness :
    sch_am pOne 0 = c_monthly pOne / (1 - ((1 + c_monthly pOne) ^ pOne.wam)⁻¹) ∧
    sch_am pOne pOne.wam = 0 :=
  ⟨(claim_C3_amended pOne (by norm_num [pOne]) (by norm_num [pOne])).2.1,
   (claim_C3_amended pOne (by norm_num [pOne]) (by norm_num [pOne])).2.2.1⟩

/-- Claim C4: at `pZero` (WAC = 0, WAM = 12) the curve denominator
`1 - (1+0)^-360` is zero and the run aborts with a division-by-zero instead
of falling back to a straight-line schedule: the zero-coupon case is NOT
handled internally, contradicting the documented intent. -/
theorem claim_C4_zero_coupon_divzero :
    pZero.wac = 0 ∧ 0 < pZero.wam ∧
      calculate_mortgage_cash_flows_with_defaults pZero = none := by
  norm_num [calculate_mortgage_cash_flows_with_defaults, curveDivZero, c_monthly, pZero]

/-- Claim C5 counterexample: `pNeg` has a negative initial balance (invalid
per the claim), yet the run does not fail: it completes and emits a full
sequence of `wam` monthly records. -/
theorem claim_C5_counterexample :
    pNeg.initialBalance < 0 ∧
      Option.map List.length (calculate_mortgage_cash_flows_with_defaults pNeg) =
        some pNeg.wam := by
  constructor
  · norm_num [pNeg]
  · rw [calculate_eq_some pNeg (by norm_num [pNeg])]
    simp

/-- Claim C5 amended: the code performs no input validation: for any
parameter set whose curve computation does not divide by zero (in particular
any WAC > 0) and WAM ≥ 1, the run completes and emits exactly WAM records,
regardless of the sign of the balance or of the rate percentages. -/
theorem claim_C5_amended (p : Params) (hw : 0 < p.wac) (hm : 1 ≤ p.wam) :
    ∃ l, calculate_mortgage_cash_flows_with_defaults p = some l ∧ l.length = p.wam := by
  refine ⟨_, calculate_eq_some p hw, ?_⟩
  simp

/-- Witness for the amended C5 at `pNeg`. -/
theorem claim_C5_amended_witness :
    ∃ l, calculate_mortgage_cash_flows_with_defaults pNeg = some l ∧ l.length = pNeg.wam :=
  claim_C5_amended pNeg (by norm_num [pNeg]) (by norm_num [pNeg])

/-- Claim C6: with zero prepayment and default rates, the actual amortization
equals the expected amortization in every month `1..WAM`, and the performing
balance at month WAM equals the curve's final scheduled value, 0. -/
theorem claim_C6_zero_rates (p : Params) (hb : 0 < p.initialBalance) (hw : 0 < p.wac)
    (hm : 1 ≤ p.wam) (hp : p.prepayRateSmm = 0) (hd : p.defaultRateMdr = 0) :
    (∀ m, 1 ≤ m → m ≤ p.wam →
      (recordAt p m).actualAmort = (recordAt p m).expectedAmortization) ∧
    (recordAt p p.wam).performingBalance = sch_am p p.wam ∧ sch_am p p.wam = 0 := by
  have hinv := no_default_invariant p (fun m _ => mdrAt_of_rate_zero p hd m)
  have hz := sch_am_zero_of_ge p p.wam (le_refl _)
  constructor
  · intro m h1 h2
    obtain ⟨k, rfl⟩ : ∃ k, m = k + 1 := ⟨m - 1, by omega⟩
    rw [recordAt_actualAmort, recordAt_expectedAmortization]
    have hnd : newDefOf p (stateAfter p k) (k + 1) = 0 := by
      rw [newDefOf_eq, mdrAt_of_rate_zero p hd, mul_zero]
    have hadb : adbOf p (stateAfter p k) (k + 1) = 0 := by
      rw [adbOf_eq_sum, queueDuring_eq_append, hnd]
      show ((queueAfter p k ++ _).map _).sum = 0
      simp [(hinv k).1]
    rw [hnd, (hinv k).2, hadb]
    ring
  · refine ⟨?_, hz⟩
    obtain ⟨j, hj⟩ : ∃ j, p.wam = j + 1 := ⟨p.wam - 1, by omega⟩
    have haf := amortFactorAt_wam p hw hm
    rw [hj] at haf hz ⊢
    rw [recordAt_performingBalance, perfAt_succ_smm_zero p hp, haf, hz, sub_self, mul_zero]

/-- Witness for C6 at `pClean`. -/
theorem claim_C6_zero_rates_witness :
    (recordAt pClean 1).actualAmort = (recordAt pClean 1).expectedAmortization ∧
    (recordAt pClean pClean.wam).performingBalance = sch_am pClean pClean.wam :=
  ⟨(claim_C6_zero_rates pClean (by norm_num [pClean]) (by norm_num [pClean])
      (by norm_num [pClean]) (by norm_num [pClean]) (by norm_num [pClean])).1
      1 (le_refl 1) (by norm_num [pClean]),
   (claim_C6_zero_rates pClean (by norm_num [pClean]) (by norm_num [pClean])
      (by norm_num [pClean]) (by norm_num [pClean]) (by norm_num [pClean])).2.1⟩

/-- Claim C7: with `months_to_liquidation ≥ WAM` (and a computable curve,
WAC > 0), the run completes normally with WAM records, the default queue is
empty in every month (so no record's recovery month falls in `1..WAM`), and
the principal recovery and principal loss fields are 0 in every record. -/
theorem claim_C7_liq_beyond (p : Params) (hw : 0 < p.wac) (hm : 1 ≤ p.wam)
    (hl : (p.wam : ℤ) ≤ p.monthsToLiquidation) :
    (∃ l, calculate_mortgage_cash_flows_with_defaults p = some l ∧ l.length = p.wam) ∧
    (∀ m, queueAfter p m = []) ∧
    (∀ m, 1 ≤ m → m ≤ p.wam →
      (recordAt p m).principalRecovery = 0 ∧ (recordAt p m).principalLoss = 0) := by
  have hinv := no_default_invariant p (mdrAt_of_liq_ge p hl)
  refine ⟨⟨_, calculate_eq_some p hw, by simp⟩, fun m => (hinv m).1, ?_⟩
  intro m h1 h2
  obtain ⟨k, rfl⟩ : ∃ k, m = k + 1 := ⟨m - 1, by omega⟩
  have hnd : newDefOf p (stateAfter p k) (k + 1) = 0 := by
    rw [newDefOf_eq, mdrAt_of_liq_ge p hl (k + 1) (by omega), mul_zero]
  have hadb : adbOf p (stateAfter p k) (k + 1) = 0 := by
    rw [adbOf_eq_sum, queueDuring_eq_append, hnd]
    show ((queueAfter p k ++ _).map _).sum = 0
    simp [(hinv k).1]
  constructor
  · rw [recordAt_principalRecovery, recordAt_principalLoss, hadb]
    norm_num
  · rw [recordAt_principalLoss, hadb]
    norm_num

/-- Witness for C7 at `pLiq` (`months_to_liquidation = 5 ≥ wam = 2`). -/
theorem claim_C7_liq_beyond_witness :
    queueAfter pLiq 2 = [] ∧
    (recordAt pLiq 1).principalRecovery = 0 ∧ (recordAt pLiq 1).principalLoss = 0 :=
  ⟨(claim_C7_liq_beyond pLiq (by norm_num [pLiq]) (by norm_num [pLiq])
      (by norm_num [pLiq])).2.1 2,
   (claim_C7_liq_beyond pLiq (by norm_num [pLiq]) (by norm_num [pLiq])
      (by norm_num [pLiq])).2.2 1 (le_refl 1) (by norm_num [pLiq])⟩

/-- Claim C8: with `months_to_liquidation ≥ 0` (the spec's parameter domain),
every default record appended during the run has
`recovery_month = origination_month + months_to_liquidation`, that month lies
in `1..WAM`, the record is in the scanned queue with a matching recovery
month exactly at that single month, and its `adb` contribution (hence its
effect on principal recovery and loss, which are functions of `adb`) is zero
at every other month. -/
theorem claim_C8_unique_contribution (p : Params) (hl : 0 ≤ p.monthsToLiquidation)
    (r : DefaultRecord) (o : ℕ) (ho : appendedAt p r o) :
    r.recoveryMonth = (o : ℤ) + p.monthsToLiquidation ∧
    1 ≤ r.recoveryMonth ∧ r.recoveryMonth ≤ (p.wam : ℤ) ∧
    (∀ m, 1 ≤ m → m ≤ p.wam →
      ((r ∈ queueAfter p m ∧ r.recoveryMonth = (m : ℤ)) ↔
        (m : ℤ) = (o : ℤ) + p.monthsToLiquidation)) ∧
    (∀ m : ℕ, r.recoveryMonth ≠ (m : ℤ) → adbContrib p m r = 0) := by
  obtain ⟨hbound, hrec⟩ := appendedAt_facts p r o ho
  have ho1 : 1 ≤ o := ho.1
  refine ⟨hrec, by omega, by omega, ?_, ?_⟩
  · intro m h1 h2
    constructor
    · rintro ⟨hmem, hrm⟩
      omega
    · intro hme
      refine ⟨?_, by omega⟩
      rw [mem_queueAfter]
      exact ⟨o, by omega, ho⟩
  · intro m hne
    unfold adbContrib
    rw [if_neg hne]

/-- Witness for C8 at `pDef`: the record appended in month 1. -/
theorem claim_C8_unique_contribution_witness :
    (⟨10, 2⟩ : DefaultRecord).recoveryMonth = ((1 : ℕ) : ℤ) + pDef.monthsToLiquidation ∧
    1 ≤ (⟨10, 2⟩ : DefaultRecord).recoveryMonth ∧
    (⟨10, 2⟩ : DefaultRecord).recoveryMonth ≤ (pDef.wam : ℤ) :=
  ⟨(claim_C8_unique_contribution pDef (by norm_num [pDef]) ⟨10, 2⟩ 1
      ⟨le_refl 1, by norm_num [newDefOf, stateAfter, initState, mdrAt, pDef],
        by norm_num [newDefOf, stateAfter, initState, mdrAt, pDef]⟩).1,
   (claim_C8_unique_contribution pDef (by norm_num [pDef]) ⟨10, 2⟩ 1
      ⟨le_refl 1, by norm_num [newDefOf, stateAfter, initState, mdrAt, pDef],
        by norm_num [newDefOf, stateAfter, initState, mdrAt, pDef]⟩).2.1,
   (claim_C8_unique_contribution pDef (by norm_num [pDef]) ⟨10, 2⟩ 1
      ⟨le_refl 1, by norm_num [newDefOf, stateAfter, initState, mdrAt, pDef],
        by norm_num [newDefOf, stateAfter, initState, mdrAt, pDef]⟩).2.2.1⟩

/-- Claim C9: in every emitted monthly record the field named `Amort Factor`
holds the pool factor (performing balance over initial balance), and — at the
concrete run `pDef`, both months — no field of the record holds the per-month
scheduled amortization factor `1 - sch[month]/sch[month-1]`. -/
theorem claim_C9_amort_factor_field (p : Params) (m : ℕ) (h1 : 1 ≤ m) (h2 : m ≤ p.wam) :
    (displayRecord (recordAt p m)).amortFactor =
      (displayRecord (recordAt p m)).performingBalance / p.initialBalance ∧
    noFieldHolds (displayRecord (recordAt pDef 1)) (amortFactorAt pDef 1) ∧
    noFieldHolds (displayRecord (recordAt pDef 2)) (amortFactorAt pDef 2) := by
  refine ⟨?_, ?_, ?_⟩
  · obtain ⟨k, rfl⟩ : ∃ k, m = k + 1 := ⟨m - 1, by omega⟩
    show (recordAt p (k + 1)).amortFactor = (recordAt p (k + 1)).performingBalance / p.initialBalance
    rw [recordAt_amortFactor, recordAt_performingBalance]
  · norm_num [noFieldHolds, displayRecord, recordAt, stateAfter, monthStep, mdrAt,
      smmOf, newDefOf, queueDuring, adbContrib, adbOf, amortFactorAt, sch_am,
      c_monthly, initState, pDef]
    simp
  · norm_num [noFieldHolds, displayRecord, recordAt, stateAfter, monthStep, mdrAt,
      smmOf, newDefOf, queueDuring, adbContrib, adbOf, amortFactorAt, sch_am,
      c_monthly, initState, pDef]

/-- Witness for C9 at `pDef`, month 1. -/
theorem claim_C9_amort_factor_field_witness :
    (displayRecord (recordAt pDef 1)).amortFactor =
      (displayRecord (recordAt pDef 1)).performingBalance / pDef.initialBalance :=
  (claim_C9_amort_factor_field pDef 1 (le_refl 1) (by norm_num [pDef])).1

/-- Claim C10 counterexample: `pMtl0` is valid in the claim's sense
(`c > 0`, `0 ≤ months_to_liquidation < WAM`), P&I is advanced, and the
month-1 default record matures in month 1, yet the divisor
`sch[month - months_to_liquidation] = sch[1] = sch[WAM]` is zero: the
division executes with a zero divisor. -/
theorem claim_C10_counterexample :
    0 < c_monthly pMtl0 ∧ 0 ≤ pMtl0.monthsToLiquidation ∧
      pMtl0.monthsToLiquidation < (pMtl0.wam : ℤ) ∧ pMtl0.piAdvanced = true ∧
      (⟨100, 1⟩ : DefaultRecord) ∈ queueAfter pMtl0 1 ∧
      (⟨100, 1⟩ : DefaultRecord).recoveryMonth = ((1 : ℕ) : ℤ) ∧
      sch_am pMtl0 (((1 : ℤ) - pMtl0.monthsToLiquidation).toNat) = 0 := by
  norm_num [c_monthly, queueAfter, stateAfter, monthStep, queueDuring, newDefOf,
    mdrAt, initState, sch_am, pMtl0]

/-- Claim C10 amended: with `c > 0` and `1 ≤ months_to_liquidation < WAM`,
whenever a queued default record matures at a month in `1..WAM`, the curve
value used as divisor, `sch[month - months_to_liquidation]`, is strictly
positive. -/
theorem claim_C10_amended (p : Params) (hw : 0 < p.wac)
    (hl1 : 1 ≤ p.monthsToLiquidation) (hl2 : p.monthsToLiquidation < (p.wam : ℤ))
    (m : ℕ) (h1 : 1 ≤ m) (h2 : m ≤ p.wam) (r : DefaultRecord)
    (hr : r ∈ queueAfter p m) (hrec : r.recoveryMonth = (m : ℤ)) :
    0 < sch_am p (((m : ℤ) - p.monthsToLiquidation).toNat) := by
  obtain ⟨o, ho, happ⟩ := (mem_queueAfter p r m).mp hr
  obtain ⟨hbound, hr2⟩ := appendedAt_facts p r o happ
  have ho1 : 1 ≤ o := happ.1
  have heq : ((m : ℤ) - p.monthsToLiquidation).toNat = o := by omega
  rw [heq]
  exact sch_am_pos p hw o (by omega)

/-- Witness for the amended C10 at `pDef`, month 2. -/
theorem claim_C10_amended_witness :
    0 < sch_am pDef (((2 : ℕ) : ℤ) - pDef.monthsToLiquidation).toNat :=
  claim_C10_amended pDef (by norm_num [pDef]) (by norm_num [pDef]) (by norm_num [pDef])
    2 (by norm_num) (by norm_num [pDef]) ⟨10, 2⟩
    (by norm_num [queueAfter, stateAfter, monthStep, queueDuring, newDefOf, mdrAt,
      smmOf, adbContrib, adbOf, amortFactorAt, sch_am, c_monthly, initState, pDef])
    (by norm_num)

end MortgageCashflow
